import Mathlib

/-!
Verification development for the `ollama_telegrambot_api` repository.

The package module `src/ollama_telegrambot_api/agent.py` is the authoritative
variant (the spec's design notes mark earlier top-level scripts as superseded).
Text is modelled as `List Char`; Python strings become `List Char`, the float
execution time becomes `ℚ`, machine integers become `Nat`/`Int`/`ℤ`, and the
network interaction of the streaming client is modelled as an explicit
description of the lines delivered by the transport together with the point at
which a network fault occurs, so that `ask`, `parse_response`,
`format_answer`, `send_disclaimer_message` and `stream_response` become pure
functions of those inputs.
-/

namespace OllamaBot

/-- The backtick character (code point 96), written via `Char.ofNat`. -/
def btick : Char := Char.ofNat 96

/-- The triple-backtick fence delimiter that `format_answer` splits on
(`answer.split("```")` in `TelegramAgent.format_answer`). -/
def fence : List Char := [btick, btick, btick]

/-- Prepend a character to the first piece of a non-empty piece list;
used to build up the left-to-right scan of the Python `str.split`. -/
def consHead (c : Char) : List (List Char) → List (List Char)
  | [] => [[c]]
  | p :: ps => (c :: p) :: ps

/-- `splitFence l` is Python's `l.split("```")`: leftmost, non-overlapping
occurrences of the triple backtick separate the pieces; the result always has
at least one piece and may contain empty pieces. -/
def splitFence : List Char → List (List Char)
  | c :: d :: e :: rest =>
    if c = btick ∧ d = btick ∧ e = btick then
      [] :: splitFence rest
    else
      consHead c (splitFence (d :: e :: rest))
  | l => [l]

/-- Segment kind recorded in the `type` field of the dict built by
`TelegramAgent.format_answer`: the execution-time trailer block is `time`,
every content block is `answer`. -/
inductive BlockType
  | time
  | answer
deriving DecidableEq

/-- Rendering format recorded in the `format` field of the block dicts:
prose blocks are `HTML`, rewrapped code blocks are `MarkdownV2`. -/
inductive BlockFormat
  | HTML
  | MarkdownV2
deriving DecidableEq

/-- One block dict produced by `TelegramAgent.format_answer`. -/
structure Block where
  btype : BlockType
  fmt : BlockFormat
  text : List Char
deriving DecidableEq

/-- Python's `f"{t:.2f}"` for a non-negative rational execution time: the
integer part, a dot, and exactly two fractional digits (floor at the second
decimal; identical to Python whenever `t` has at most two decimals, which is
the precision exercised by the specification's scenarios). -/
def format2f (q : ℚ) : String :=
  let n : ℤ := q.num * 100 / (q.den : ℤ)
  let ip : ℤ := n / 100
  let fp : ℕ := (n % 100).toNat
  toString ip ++ "." ++ (if fp < 10 then "0" ++ toString fp else toString fp)

/-- The execution-time block appended (first) by `TelegramAgent.format_answer`:
`{'type': 'time', 'format': 'HTML', 'text': f"🕒 <i>Execution time: {t:.2f}s</i>"}`. -/
def mkTimeBlock (t : ℚ) : Block :=
  { btype := .time
    fmt := .HTML
    text := ("🕒 <i>Execution time: " ++ format2f t ++ "s</i>").toList }

/-- The `for i in range(len(split_answer))` loop of `TelegramAgent.format_answer`,
started at index `i`: even indices become HTML prose blocks carrying the raw
piece, odd indices become MarkdownV2 blocks with the fences restored, and a
block whose `text` is empty is not appended. -/
def answerLoop : Nat → List (List Char) → List Block
  | _, [] => []
  | i, s :: rest =>
    let b : Block :=
      if i % 2 = 0 then
        { btype := .answer, fmt := .HTML, text := s }
      else
        { btype := .answer, fmt := .MarkdownV2, text := fence ++ s ++ fence }
    (if b.text = [] then [] else [b]) ++ answerLoop (i + 1) rest

/-- `TelegramAgent.format_answer`: split the answer on the triple-backtick
fence, append the execution-time block first, then the alternating
prose/code blocks for the pieces, dropping empty blocks. -/
def format_answer (answer : List Char) (execution_time : ℚ) : List Block :=
  mkTimeBlock execution_time :: answerLoop 0 (splitFence answer)

/-- The content segments of a block list: every block whose `type` is
`answer`, i.e. everything except the execution-time block. -/
def contentBlocks (bs : List Block) : List Block :=
  bs.filter (fun b => b.btype = BlockType.answer)

/-- Concatenation, in order, of the texts of a list of blocks. -/
def joinTexts (bs : List Block) : List Char :=
  (bs.map Block.text).flatten

/-- The number of fence markers in a text, read off from the split:
`k` fences separate the text into `k + 1` pieces. -/
def fenceCount (l : List Char) : Nat :=
  (splitFence l).length - 1

theorem intercalate_nil (sep : List Char) : List.intercalate sep [] = [] := rfl

theorem intercalate_single (sep x : List Char) : List.intercalate sep [x] = x := by
  simp [List.intercalate]

theorem intercalate_cons₂ (sep a b : List Char) (l : List (List Char)) :
    List.intercalate sep (a :: b :: l) = a ++ sep ++ List.intercalate sep (b :: l) := by
  simp [List.intercalate, List.intersperse]

theorem intercalate_cons_of_ne_nil (sep a : List Char) (l : List (List Char)) (h : l ≠ []) :
    List.intercalate sep (a :: l) = a ++ sep ++ List.intercalate sep l := by
  cases l with
  | nil => exact absurd rfl h
  | cons b t => exact intercalate_cons₂ sep a b t

theorem splitFence_ne_nil : ∀ l : List Char, splitFence l ≠ [] := by
  intro l
  match l with
  | c :: d :: e :: rest =>
    rw [splitFence]
    split
    · exact List.cons_ne_nil _ _
    · cases h : splitFence (d :: e :: rest) with
      | nil => simp [consHead]
      | cons p ps => simp [consHead]
  | [] => simp [splitFence]
  | [c] => simp [splitFence]
  | [c, d] => simp [splitFence]

theorem intercalate_consHead (sep : List Char) (c : Char) (l : List (List Char)) (h : l ≠ []) :
    List.intercalate sep (consHead c l) = c :: List.intercalate sep l := by
  cases l with
  | nil => exact absurd rfl h
  | cons p ps =>
    cases ps with
    | nil => simp [consHead, intercalate_single]
    | cons q qs =>
      rw [consHead, intercalate_cons₂, intercalate_cons₂]
      simp

/-- Rejoining the pieces of `splitFence` with the fence restores the
original text: the split loses no characters. -/
theorem intercalate_splitFence : ∀ l : List Char, List.intercalate fence (splitFence l) = l := by
  intro l
  match l with
  | c :: d :: e :: rest =>
    rw [splitFence]
    split
    · next hb =>
      obtain ⟨h1, h2, h3⟩ := hb
      rw [intercalate_cons_of_ne_nil _ _ _ (splitFence_ne_nil rest)]
      rw [intercalate_splitFence rest]
      simp [fence, h1, h2, h3]
    · rw [intercalate_consHead _ _ _ (splitFence_ne_nil (d :: e :: rest))]
      rw [intercalate_splitFence (d :: e :: rest)]
  | [] => simp [splitFence, intercalate_single]
  | [c] => simp [splitFence, intercalate_single]
  | [c, d] => simp [splitFence, intercalate_single]

theorem joinTexts_append (a b : List Block) :
    joinTexts (a ++ b) = joinTexts a ++ joinTexts b := by
  simp [joinTexts]

/-- The alternating rewrap of the pieces, abstracting the index of
`answerLoop` to its parity: at `parity = true` the piece is fence-wrapped. -/
def altJoin (parity : Bool) : List (List Char) → List Char
  | [] => []
  | s :: rest => (if parity then fence ++ s ++ fence else s) ++ altJoin (!parity) rest

theorem fence_wrap_ne_nil (s : List Char) : fence ++ s ++ fence ≠ [] := by
  simp [fence]

theorem joinTexts_answerLoop (pieces : List (List Char)) :
    ∀ i : Nat, joinTexts (answerLoop i pieces) = altJoin (decide (i % 2 = 1)) pieces := by
  induction pieces with
  | nil => intro i; simp [answerLoop, altJoin, joinTexts]
  | cons s rest ih =>
    intro i
    rw [answerLoop, joinTexts_append, ih (i + 1), altJoin]
    by_cases h : i % 2 = 0
    · have h1 : (decide (i % 2 = 1)) = false := decide_eq_false (by omega)
      have h2 : (decide ((i + 1) % 2 = 1)) = true := decide_eq_true (by omega)
      simp only [if_pos h, h1, h2]
      by_cases hs : s = []
      · subst hs; simp [joinTexts]
      · simp [joinTexts, hs]
    · have h1 : (decide (i % 2 = 1)) = true := decide_eq_true (by omega)
      have h2 : (decide ((i + 1) % 2 = 1)) = false := decide_eq_false (by omega)
      simp only [if_neg h, h1, h2]
      simp [joinTexts, fence]

theorem altJoin_eq_intercalate (pieces : List (List Char)) :
    (pieces.length % 2 = 1 → altJoin false pieces = List.intercalate fence pieces) ∧
    (pieces.length % 2 = 0 →
      altJoin true pieces = if pieces = [] then [] else fence ++ List.intercalate fence pieces) := by
  induction pieces with
  | nil => simp [altJoin]
  | cons s rest ih =>
    constructor
    · intro h
      have hr : rest.length % 2 = 0 := by simp at h; omega
      rw [altJoin]
      simp only [if_neg (Bool.false_ne_true ∘ id)]
      by_cases hrest : rest = []
      · subst hrest; simp [altJoin, intercalate_single]
      · rw [Bool.not_false, ih.2 hr, if_neg hrest,
          intercalate_cons_of_ne_nil _ _ _ hrest]
        simp
    · intro h
      have hr : rest.length % 2 = 1 := by simp at h; omega
      have hrest : rest ≠ [] := by
        intro hc; subst hc; simp at hr
      rw [altJoin]
      simp only [if_pos rfl, Bool.not_true, ih.1 hr, if_neg (List.cons_ne_nil s rest),
        intercalate_cons_of_ne_nil _ _ _ hrest]
      simp

theorem answerLoop_btype (pieces : List (List Char)) :
    ∀ (i : Nat) (b : Block), b ∈ answerLoop i pieces → b.btype = BlockType.answer := by
  induction pieces with
  | nil => intro i b hb; simp [answerLoop] at hb
  | cons s rest ih =>
    intro i b hb
    rw [answerLoop, List.mem_append] at hb
    rcases hb with hb | hb
    · by_cases h : i % 2 = 0 <;>
        [simp only [if_pos h] at hb; simp only [if_neg h] at hb] <;>
        split at hb <;> simp at hb <;> simp [hb]
    · exact ih (i + 1) b hb

/-- The content segments of `format_answer` are exactly the blocks produced by
the index loop: the execution-time block is the only non-`answer` block. -/
theorem contentBlocks_format_answer (A : List Char) (t : ℚ) :
    contentBlocks (format_answer A t) = answerLoop 0 (splitFence A) := by
  rw [format_answer, contentBlocks, List.filter]
  have ht : (decide ((mkTimeBlock t).btype = BlockType.answer)) = false := by
    simp [mkTimeBlock]
  rw [ht, List.filter_eq_self.mpr]
  intro b hb
  simp [answerLoop_btype (splitFence A) 0 b hb]

theorem splitFence_length_pos (l : List Char) : 0 < (splitFence l).length :=
  List.length_pos.mpr (splitFence_ne_nil l)

theorem answerLoop_getLast_odd (pieces : List (List Char)) :
    ∀ i : Nat, pieces ≠ [] → (i + pieces.length) % 2 = 0 →
    ∃ s, pieces.getLast? = some s ∧
      (answerLoop i pieces).getLast? =
        some { btype := BlockType.answer, fmt := BlockFormat.MarkdownV2,
               text := fence ++ s ++ fence } := by
  induction pieces with
  | nil => intro i h; exact absurd rfl h
  | cons s rest ih =>
    intro i _ hpar
    cases hr : rest with
    | nil =>
      subst hr
      have hodd : ¬ (i % 2 = 0) := by simp at hpar; omega
      refine ⟨s, rfl, ?_⟩
      rw [answerLoop, answerLoop]
      simp only [if_neg hodd]
      simp [fence]
    | cons r rs =>
      subst hr
      have hpar2 : ((i + 1) + (r :: rs).length) % 2 = 0 := by simp at hpar ⊢; omega
      obtain ⟨w, hw, hlast⟩ := ih (i + 1) (List.cons_ne_nil r rs) hpar2
      refine ⟨w, ?_, ?_⟩
      · rw [List.getLast?_cons_cons, hw]
      · rw [answerLoop]
        have hne : answerLoop (i + 1) (r :: rs) ≠ [] := by
          intro hc
          rw [hc] at hlast
          simp at hlast
        rw [List.getLast?_append_of_ne_nil _ hne, hlast]

/-- C2 (amended): for every answer text with an EVEN number of fence markers,
the concatenation of the content segments of `format_answer`, in order and
excluding the execution-time segment, reconstructs the answer exactly. -/
theorem format_answer_reconstructs_even (A : List Char) (t : ℚ)
    (h : fenceCount A % 2 = 0) :
    joinTexts (contentBlocks (format_answer A t)) = A := by
  rw [contentBlocks_format_answer, joinTexts_answerLoop]
  have hlen : 0 < (splitFence A).length := splitFence_length_pos A
  have hodd : (splitFence A).length % 2 = 1 := by
    rw [fenceCount] at h; omega
  have := (altJoin_eq_intercalate (splitFence A)).1 hodd
  simpa [this] using intercalate_splitFence A

/-- C2 counterexample: with an odd number of fence markers the rewrap appends
a closing fence that was not in the answer, so concatenation does not
reconstruct it. -/
theorem format_answer_reconstruct_fails_odd :
    joinTexts (contentBlocks (format_answer ("a```b".toList) 0)) ≠ "a```b".toList := by
  decide

/-- Witness for the amended C2 at a concrete even-fence answer. -/
theorem format_answer_reconstructs_even_witness :
    fenceCount ("x```y```z".toList) % 2 = 0 ∧
    joinTexts (contentBlocks (format_answer ("x```y```z".toList) 0)) = "x```y```z".toList :=
  ⟨by decide, format_answer_reconstructs_even ("x```y```z".toList) 0 (by decide)⟩

/-- C4: for every answer text with an odd number of fence markers, the final
content segment of `format_answer` is a CODE segment (MarkdownV2, fences
restored): the last fragment of the split falls on an odd index and is
rewrapped, with no special-case repair of the dangling fence. -/
theorem format_answer_dangling_fence_code (A : List Char) (t : ℚ)
    (h : fenceCount A % 2 = 1) :
    ∃ s, (splitFence A).getLast? = some s ∧
      (contentBlocks (format_answer A t)).getLast? =
        some { btype := BlockType.answer, fmt := BlockFormat.MarkdownV2,
               text := fence ++ s ++ fence } := by
  rw [contentBlocks_format_answer]
  have hlen : 0 < (splitFence A).length := splitFence_length_pos A
  have heven : (0 + (splitFence A).length) % 2 = 0 := by
    rw [fenceCount] at h; omega
  exact answerLoop_getLast_odd (splitFence A) 0 (splitFence_ne_nil A) heven

/-- Witness for C4 at the dangling-fence answer `"a```b"`. -/
theorem format_answer_dangling_fence_code_witness :
    fenceCount ("a```b".toList) % 2 = 1 ∧
    ∃ s, (splitFence ("a```b".toList)).getLast? = some s ∧
      (contentBlocks (format_answer ("a```b".toList) 0)).getLast? =
        some { btype := BlockType.answer, fmt := BlockFormat.MarkdownV2,
               text := fence ++ s ++ fence } :=
  ⟨by decide, format_answer_dangling_fence_code ("a```b".toList) 0 (by decide)⟩

theorem splitFence_of_fenceCount_zero (A : List Char) (h : fenceCount A = 0) :
    splitFence A = [A] := by
  have hlen : 0 < (splitFence A).length := splitFence_length_pos A
  have h1 : (splitFence A).length = 1 := by rw [fenceCount] at h; omega
  obtain ⟨x, hx⟩ := List.length_eq_one.mp h1
  have := intercalate_splitFence A
  rw [hx, intercalate_single] at this
  rw [hx, this]

/-- C9 counterexample: the empty answer has zero fence markers, yet
`format_answer` produces no PROSE content segment at all (the single empty
piece is dropped), and the execution-time segment is not trailing. -/
theorem format_answer_empty_answer :
    fenceCount ([] : List Char) = 0 ∧
    (contentBlocks (format_answer [] 0)).length ≠ 1 ∧
    format_answer [] 0 = [mkTimeBlock 0] := by decide

/-- C9 (amended): for every answer text with zero fence markers, the result is
the execution-time segment FIRST, followed by exactly one PROSE content
segment carrying the whole answer when the answer is non-empty, and by no
content segment at all when the answer is empty. -/
theorem format_answer_zero_fences (A : List Char) (t : ℚ) (h : fenceCount A = 0) :
    format_answer A t =
      mkTimeBlock t ::
        (if A = [] then []
         else [{ btype := BlockType.answer, fmt := BlockFormat.HTML, text := A }]) := by
  rw [format_answer, splitFence_of_fenceCount_zero A h, answerLoop, answerLoop]
  simp

/-- Witness for the amended C9 at a fence-free answer. -/
theorem format_answer_zero_fences_witness :
    fenceCount ("hello".toList) = 0 ∧
    format_answer ("hello".toList) 2 =
      mkTimeBlock 2 ::
        (if ("hello".toList : List Char) = [] then []
         else [{ btype := BlockType.answer, fmt := BlockFormat.HTML,
                 text := "hello".toList }]) :=
  ⟨by decide, format_answer_zero_fences ("hello".toList) 2 (by decide)⟩

/-- The answer text of the specification's formatting scenario. -/
def exampleAnswer : List Char := "intro ```code block``` outro".toList

/-- C5 counterexample: on the scenario input the execution-time segment is not
the last segment of `format_answer`'s result — the list does not decompose as
content segments followed by the time segment. -/
theorem format_answer_time_not_last :
    format_answer exampleAnswer (mkRat 3 2) ≠
      contentBlocks (format_answer exampleAnswer (mkRat 3 2)) ++ [mkTimeBlock (mkRat 3 2)] := by
  decide

/-- C5 (amended): the execution-time segment of `format_answer` is the FIRST
segment of the returned list (followed by the content segments), it renders
the time to two decimal places, and it is emitted unconditionally; on the
scenario input `"intro ```code block``` outro"` with time 1.5 the result is
the time segment `"🕒 <i>Execution time: 1.50s</i>"` first, then
PROSE `"intro "`, CODE `"```code block```"`, PROSE `" outro"`. -/
theorem format_answer_time_segment_first :
    (∀ (A : List Char) (t : ℚ),
      format_answer A t = mkTimeBlock t :: contentBlocks (format_answer A t)) ∧
    format2f (mkRat 3 2) = "1.50" ∧
    format_answer exampleAnswer (mkRat 3 2) =
      [mkTimeBlock (mkRat 3 2),
       { btype := BlockType.answer, fmt := BlockFormat.HTML, text := "intro ".toList },
       { btype := BlockType.answer, fmt := BlockFormat.MarkdownV2,
         text := "```code block```".toList },
       { btype := BlockType.answer, fmt := BlockFormat.HTML, text := " outro".toList }] := by
  refine ⟨?_, by decide, by decide⟩
  intro A t
  rw [contentBlocks_format_answer, format_answer]

/-- One line of the streamed response body: empty lines are skipped by the
reader (`if line:` in `OllamaStreamResponse.ask`); non-empty lines parse as a
JSON object carrying `response` (the incremental text) and `done`. -/
inductive RawLine
  | empty
  | token (response : List Char) (done : Bool)
deriving DecidableEq

/-- The mutable state of `OllamaStreamResponse`: accumulated `answer`, the
`answer_finished` and `error` flags, and the `status_code`/`response_text`
attributes, which the Python object only acquires on the code paths that
assign them (modelled as `Option`, `none` = attribute never assigned). -/
structure OllamaStreamResponse where
  answer_finished : Bool := false
  answer : List Char := []
  error : Bool := false
  status_code : Option Nat := none
  response_text : Option (List Char) := none
deriving DecidableEq

/-- The freshly constructed stream state (dataclass defaults). -/
def initResponse : OllamaStreamResponse := {}

/-- The body of the `for line in response.iter_lines()` loop: an empty line is
skipped; otherwise `response` is appended to the answer and `answer_finished`
is assigned that line's `done` flag. -/
def processLine (s : OllamaStreamResponse) : RawLine → OllamaStreamResponse
  | .empty => s
  | .token resp done =>
    { s with answer := s.answer ++ resp, answer_finished := done }

/-- The network behaviour observed by one call of `OllamaStreamResponse.ask`:
either the initial POST raises `requests.exceptions.RequestException`
(`connectFail`), or a response arrives with a status code, a body (used when
the status is not 200), the stream's lines, and — when `failAfter = some k` —
a `RequestException` raised by the transport after `k` lines were processed. -/
inductive AskOutcome
  | connectFail
  | response (status : Nat) (body : List Char) (lines : List RawLine) (failAfter : Option Nat)
deriving DecidableEq

/-- `OllamaStreamResponse.ask`: on status 200 it folds `processLine` over the
delivered lines (all of them, or the first `k` when the transport faults
mid-stream, in which case the `except` clause sets `error` and `status_code`
is never assigned); on a non-200 status it stores the body in
`response_text`, sets `error`, and records the status; on a connection
failure it only sets `error`. -/
def ask (init : OllamaStreamResponse) : AskOutcome → OllamaStreamResponse
  | .connectFail => { init with error := true }
  | .response status body lines failAfter =>
    if status = 200 then
      match failAfter with
      | none =>
        let s := lines.foldl processLine init
        { s with status_code := some status }
      | some k =>
        let s := (lines.take k).foldl processLine init
        { s with error := true }
    else
      { init with response_text := some body, error := true, status_code := some status }

/-- The successive states of the reader while folding `processLine` over the
lines: `streamTrace s lines` starts at `s` and records the state after each
line. -/
def streamTrace (s : OllamaStreamResponse) : List RawLine → List OllamaStreamResponse
  | [] => [s]
  | l :: rest => s :: streamTrace (processLine s l) rest

/-- The states the stream passes through before the terminal flag
assignments of `ask`: the per-line states of the processed prefix of the
stream (just the initial state when no line is processed). -/
def askFront (init : OllamaStreamResponse) : AskOutcome → List OllamaStreamResponse
  | .connectFail => [init]
  | .response status _body lines failAfter =>
    if status = 200 then
      match failAfter with
      | none => streamTrace init lines
      | some k => streamTrace init (lines.take k)
    else
      [init]

/-- Every state the stream passes through during one call of `ask`: the
per-line states of the processed prefix, then the final state with the
terminal flag assignments. -/
def askTrace (init : OllamaStreamResponse) (o : AskOutcome) : List OllamaStreamResponse :=
  askFront init o ++ [ask init o]

/-- Concatenation of the `response` texts of a list of lines, in order. -/
def concatResponses : List RawLine → List Char
  | [] => []
  | .empty :: rest => concatResponses rest
  | .token resp _ :: rest => resp ++ concatResponses rest

/-- The `done` flag of the last non-empty line, with default `d` when no
non-empty line occurs. -/
def lastDone (d : Bool) : List RawLine → Bool
  | [] => d
  | .empty :: rest => lastDone d rest
  | .token _ done :: rest => lastDone done rest

/-- Python attribute errors raised by `parse_response` when it reads
attributes that the error path of `ask` never assigned. -/
inductive PyFault
  | attributeError
deriving DecidableEq

/-- `OllamaAPI.parse_response`, projected to the answer text and error flag of
the dict it builds: with the `error` flag set it renders
`f"Status Code: {status_code} - Response: {response_text}"`, which raises
`AttributeError` when either attribute was never assigned; otherwise it
returns the accumulated answer. (The passthrough of the message payload and
the timing fields carries no logic and is not modelled.) -/
def parse_response (R : OllamaStreamResponse) : Except PyFault (List Char × Bool) :=
  if R.error then
    match R.status_code with
    | none => .error .attributeError
    | some sc =>
      match R.response_text with
      | none => .error .attributeError
      | some rt =>
        .ok (("Status Code: " ++ toString sc ++ " - Response: ").toList ++ rt, true)
  else
    .ok (R.answer, false)

theorem foldl_processLine_answer (lines : List RawLine) :
    ∀ s : OllamaStreamResponse,
      (lines.foldl processLine s).answer = s.answer ++ concatResponses lines := by
  induction lines with
  | nil => intro s; simp [concatResponses]
  | cons l rest ih =>
    intro s
    cases l with
    | empty => rw [List.foldl_cons, ih]; simp [processLine, concatResponses]
    | token resp done =>
      rw [List.foldl_cons, ih]
      simp [processLine, concatResponses]

theorem foldl_processLine_finished (lines : List RawLine) :
    ∀ s : OllamaStreamResponse,
      (lines.foldl processLine s).answer_finished = lastDone s.answer_finished lines := by
  induction lines with
  | nil => intro s; simp [lastDone]
  | cons l rest ih =>
    intro s
    cases l with
    | empty => rw [List.foldl_cons, ih]; simp [processLine, lastDone]
    | token resp done => rw [List.foldl_cons, ih]; simp [processLine, lastDone]

theorem foldl_processLine_status (lines : List RawLine) :
    ∀ s : OllamaStreamResponse,
      (lines.foldl processLine s).status_code = s.status_code := by
  induction lines with
  | nil => intro s; rfl
  | cons l rest ih =>
    intro s
    cases l with
    | empty => rw [List.foldl_cons, ih]; rfl
    | token resp done => rw [List.foldl_cons, ih]; rfl

theorem streamTrace_error (lines : List RawLine) :
    ∀ (s : OllamaStreamResponse) (t : OllamaStreamResponse),
      t ∈ streamTrace s lines → t.error = s.error := by
  induction lines with
  | nil => intro s t ht; simp [streamTrace] at ht; rw [ht]
  | cons l rest ih =>
    intro s t ht
    rw [streamTrace] at ht
    rcases List.mem_cons.mp ht with h | h
    · rw [h]
    · have := ih (processLine s l) t h
      rw [this]
      cases l <;> rfl

/-- Every run of `ask` decomposes into the states before the terminal flag
assignments — all with `error` still false — followed by the final state. -/
theorem askTrace_decomp (o : AskOutcome) :
    askTrace initResponse o = askFront initResponse o ++ [ask initResponse o] ∧
      ∀ s ∈ askFront initResponse o, s.error = false := by
  refine ⟨rfl, ?_⟩
  cases o with
  | connectFail =>
    intro s hs; simp [askFront] at hs; rw [hs]; rfl
  | response status body lines failAfter =>
    by_cases h200 : status = 200
    · subst h200
      cases failAfter with
      | none =>
        intro s hs
        simp only [askFront, if_pos rfl] at hs
        exact streamTrace_error lines initResponse s hs
      | some k =>
        intro s hs
        simp only [askFront, if_pos rfl] at hs
        exact streamTrace_error (lines.take k) initResponse s hs
    · intro s hs
      simp only [askFront, if_neg h200] at hs
      simp at hs; rw [hs]; rfl

/-- C1 (amended): once the `error` flag is set, the accumulated text is never
appended to again (the flag is set only as the terminal action of a run); the
`finished` flag, however, does not stop the reader: every delivered line is
processed, each non-empty line overwrites `answer_finished` with its own
`done` value, and the final answer concatenates the `response` texts of all
lines — so text can be appended after a line carried `done = true`. -/
theorem stream_error_terminal (o : AskOutcome) :
    (∀ (i j : Nat) (s t : OllamaStreamResponse), i ≤ j →
      (askTrace initResponse o)[i]? = some s →
      (askTrace initResponse o)[j]? = some t →
      s.error = true → t.answer = s.answer) ∧
    (∀ (body : List Char) (lines : List RawLine),
      (ask initResponse (.response 200 body lines none)).answer_finished =
        lastDone false lines ∧
      (ask initResponse (.response 200 body lines none)).answer = concatResponses lines) := by
  constructor
  · intro i j s t hij hi hj herr
    obtain ⟨hdec, hfront⟩ := askTrace_decomp o
    set front := askFront initResponse o with hfr
    have hlen : (askTrace initResponse o).length = front.length + 1 := by
      rw [hdec]; simp
    have hi_lt : i < front.length + 1 := by
      have := (List.getElem?_eq_some.mp hi).1
      omega
    have hj_lt : j < front.length + 1 := by
      have := (List.getElem?_eq_some.mp hj).1
      omega
    have hi_ge : ¬ i < front.length := by
      intro hlt
      have : (askTrace initResponse o)[i]? = front[i]? := by
        rw [hdec, List.getElem?_append, if_pos hlt]
      rw [this] at hi
      have hmem : s ∈ front := List.getElem?_mem hi
      rw [hfront s hmem] at herr
      exact Bool.false_ne_true herr
    have hieq : i = front.length := by omega
    have hjeq : j = front.length := by omega
    rw [hieq] at hi
    rw [hjeq] at hj
    rw [hi] at hj
    injection hj with hj
    rw [hj]
  · intro body lines
    have hask : ask initResponse (.response 200 body lines none) =
        { lines.foldl processLine initResponse with status_code := some 200 } := rfl
    constructor
    · rw [hask]
      show (lines.foldl processLine initResponse).answer_finished = lastDone false lines
      rw [foldl_processLine_finished]
      rfl
    · rw [hask]
      show (lines.foldl processLine initResponse).answer = concatResponses lines
      rw [foldl_processLine_answer]
      rfl

/-- The stream state after a run that only set the error flag. -/
def errState : OllamaStreamResponse := { error := true }

/-- Witness for the amended C1: in the run where the initial connection fails,
the final state has the error flag set, and from that point on (there is no
later point) the answer never changes; and on the two-line stream ending in
`done = true` the final state is finished with the full concatenated text. -/
theorem stream_error_terminal_witness :
    ((askTrace initResponse AskOutcome.connectFail)[1]? = some errState) ∧
    errState.error = true ∧
    errState.answer = errState.answer ∧
    (ask initResponse (.response 200 []
        [.token "Hi".toList false, .token " there".toList true] none)).answer_finished =
      lastDone false [.token "Hi".toList false, .token " there".toList true] :=
  ⟨by decide, by decide,
    (stream_error_terminal AskOutcome.connectFail).1 1 1 errState errState
      (le_refl 1) (by decide) (by decide) (by decide),
    ((stream_error_terminal AskOutcome.connectFail).2 []
      [.token "Hi".toList false, .token " there".toList true]).1⟩

/-- C1 counterexample: on a stream whose first line carries `done = true` and
which delivers a further line, the reader does not stop: after the state in
which `answer_finished` is true, the accumulated text is appended to again
(and `answer_finished` is overwritten to false). -/
theorem stream_appends_after_finished :
    ((askTrace initResponse
        (.response 200 [] [.token "a".toList true, .token "b".toList false] none))[1]?.map
      OllamaStreamResponse.answer_finished = some true) ∧
    ((askTrace initResponse
        (.response 200 [] [.token "a".toList true, .token "b".toList false] none))[1]?.map
      OllamaStreamResponse.answer = some "a".toList) ∧
    ((askTrace initResponse
        (.response 200 [] [.token "a".toList true, .token "b".toList false] none))[2]?.map
      OllamaStreamResponse.answer = some "ab".toList) := by
  decide

/-- C3 counterexample: when the transport faults after one processed line, the
error flag is set and the partial text is still in the stream state, but
`parse_response` does not surface it: it raises `AttributeError` reading the
never-assigned `status_code`, instead of returning the partial answer. -/
theorem parse_response_drops_partial_text :
    (ask initResponse (.response 200 [] [.token "Hi".toList false] (some 1))).error = true ∧
    (ask initResponse (.response 200 [] [.token "Hi".toList false] (some 1))).answer =
      "Hi".toList ∧
    parse_response (ask initResponse (.response 200 [] [.token "Hi".toList false] (some 1))) =
      .error .attributeError := by
  refine ⟨by decide, by decide, rfl⟩

/-- C3 (amended): a network-level exception during the streaming read is
caught and sets the error flag, and the text accumulated before the fault is
preserved in the stream state's `answer` field; but it is not surfaced as the
exchange's answer: with the error flag set, `parse_response` reads
`status_code` and `response_text`, which a mid-stream fault leaves unassigned,
so parsing the exchange raises `AttributeError` rather than returning the
partial text. -/
theorem stream_fault_keeps_accumulated_text (body : List Char) (lines : List RawLine) (k : Nat) :
    (ask initResponse (.response 200 body lines (some k))).error = true ∧
    (ask initResponse (.response 200 body lines (some k))).answer =
      concatResponses (lines.take k) ∧
    parse_response (ask initResponse (.response 200 body lines (some k))) =
      .error .attributeError := by
  have hask : ask initResponse (.response 200 body lines (some k)) =
      { (lines.take k).foldl processLine initResponse with error := true } := rfl
  refine ⟨by rw [hask], ?_, ?_⟩
  · rw [hask]
    show ((lines.take k).foldl processLine initResponse).answer = concatResponses (lines.take k)
    rw [foldl_processLine_answer]
    rfl
  · rw [hask, parse_response]
    have hstatus : ({ (lines.take k).foldl processLine initResponse with
        error := true } : OllamaStreamResponse).status_code = none := by
      show ((lines.take k).foldl processLine initResponse).status_code = none
      rw [foldl_processLine_status]
      rfl
    rw [if_pos rfl, hstatus]

/-- `TelegramAgent.send_disclaimer_message`, as the decision whether the
disclaimer is re-sent (i.e. whether `self.start` is invoked): guarded by
`if self.min_time_between_disclaimers > 0`, and inside it by
`if now - last_record_timestamp > self.min_time_between_disclaimers`.
The last-contact timestamp (read from the audit collaborator's
`find_last_record_user`, which the spec describes as
`lastContactTimestamp(userId) -> epoch seconds`) is taken as an input. -/
def send_disclaimer_message (min_time_between_disclaimers : ℤ)
    (now last_record_timestamp : ℚ) : Bool :=
  if 0 < min_time_between_disclaimers then
    if (min_time_between_disclaimers : ℚ) < now - last_record_timestamp then
      true
    else
      false
  else
    false

/-- C6 counterexample: with the threshold configured to zero the claim says
the disclaimer is re-sent unconditionally, but the outer
`min_time_between_disclaimers > 0` guard disables the gate entirely — even
7200 seconds after the last contact nothing is re-sent. -/
theorem disclaimer_zero_threshold_never_resent :
    send_disclaimer_message 0 7200 0 = false := by decide

/-- C6 (amended): the disclaimer is re-sent exactly when the configured
threshold is positive and the elapsed time since the user's last recorded
contact strictly exceeds it; a zero (or negative) threshold disables the
re-send gate, so the disclaimer is never re-sent by it. In the spec's
scenario (threshold 3600 s) it is re-sent after 7200 s and not after 1800 s. -/
theorem disclaimer_gate_iff :
    (∀ (th : ℤ) (now last : ℚ),
      send_disclaimer_message th now last = true ↔
        0 < th ∧ (th : ℚ) < now - last) ∧
    send_disclaimer_message 3600 7200 0 = true ∧
    send_disclaimer_message 3600 1800 0 = false := by
  refine ⟨?_, by norm_num [send_disclaimer_message], by norm_num [send_disclaimer_message]⟩
  intro th now last
  rw [send_disclaimer_message]
  split
  · next hpos =>
    split
    · next hlt => simp [hpos, hlt]
    · next hge => simp [hge]
  · next hnpos => simp [hnpos]

/-- The throttling sleep of `TelegramAgent.stream_response`:
`int(np.log2(1 + while_iteration / 10) + 1)` seconds at iteration `i`;
the argument is at least 1, so Python's truncating `int` is the floor. -/
noncomputable def sleep_time (i : ℕ) : ℤ :=
  ⌊Real.logb 2 (1 + (i : ℝ) / 10) + 1⌋

/-- C7: the back-off sequence is monotonically non-decreasing: for every
iteration count `i ≥ 1`, `sleep_time i ≤ sleep_time (i + 1)`. -/
theorem sleep_time_mono (i : ℕ) (h : 1 ≤ i) : sleep_time i ≤ sleep_time (i + 1) := by
  apply Int.floor_mono
  have hx : (0 : ℝ) < 1 + (i : ℝ) / 10 := by positivity
  have hxy : (1 : ℝ) + (i : ℝ) / 10 ≤ 1 + ((i : ℝ) + 1) / 10 := by
    have : (i : ℝ) ≤ (i : ℝ) + 1 := by linarith
    linarith
  have := Real.logb_le_logb_of_le (by norm_num : (1 : ℝ) < 2) hx hxy
  push_cast
  linarith

/-- Witness for C7 at the first pair of iterations. -/
theorem sleep_time_mono_witness : 1 ≤ 1 ∧ sleep_time 1 ≤ sleep_time 2 :=
  ⟨le_refl 1, sleep_time_mono 1 (le_refl 1)⟩

/-- What one iteration of the `while` loop of `TelegramAgent.stream_response`
observes: the current accumulated answer snapshot read from the shared
stream state, whether the outbound Telegram call made in this iteration (if
any) raises, and the `message_id` Telegram would return if a first send
succeeds in this iteration. -/
structure LoopIter where
  snapshot : List Char
  callFails : Bool
  newMessageId : Nat
deriving DecidableEq

/-- The local state of the display loop of `stream_response`:
`message_id` (None until assigned from a successful first send),
`parse_mode` (HTML until an outbound failure degrades it to None, modelled
as the Boolean `parse_mode_html`), and `previous_answer` (unassigned until
the first successful send). -/
structure LoopState where
  message_id : Option Nat := none
  parse_mode_html : Bool := true
  previous_answer : Option (List Char) := none
deriving DecidableEq

/-- The fresh loop state of `stream_response` (`message_id = None`,
`parse_mode = ParseMode.HTML`). -/
def initLoopState : LoopState := {}

/-- The provisional in-progress rendering: italicised with an ellipsis under
HTML parse mode (`f"<i>{Response.answer}...</i>"`), the raw text once the
parse mode was degraded to None. -/
def renderProvisional (html : Bool) (a : List Char) : List Char :=
  if html then "<i>".toList ++ a ++ "...</i>".toList else a

/-- An outbound Telegram call issued by the display loop: a fresh send
(`update.message.reply_text`, whose `result` is `some id` on success and
`none` when the call raised) or an in-place edit
(`context.bot.edit_message_text` targeting `target`, `ok = false` when the
call raised). `html` records the parse mode the call was issued with. -/
inductive TgEvent
  | send (text : List Char) (html : Bool) (result : Option Nat)
  | edit (target : Nat) (text : List Char) (html : Bool) (ok : Bool)
deriving DecidableEq

/-- The send branch of the loop body (no `message_id` yet, or a falsy one):
try `reply_text`; on success record the returned `message_id` and
`previous_answer`, on an exception degrade `parse_mode` to None. -/
def streamSend (st : LoopState) (it : LoopIter) (answer : List Char) :
    LoopState × List TgEvent :=
  if it.callFails then
    ({ st with parse_mode_html := false }, [.send answer st.parse_mode_html none])
  else
    ({ st with message_id := some it.newMessageId, previous_answer := some answer },
      [.send answer st.parse_mode_html (some it.newMessageId)])

/-- One iteration of the `while` loop body of `stream_response` (after the
sleep): render the provisional string; with a truthy `message_id`, edit only
if the rendering differs from `previous_answer` (then record it), degrading
the parse mode when the edit raises; without one, attempt the first send. -/
def streamStep (st : LoopState) (it : LoopIter) : LoopState × List TgEvent :=
  let answer := renderProvisional st.parse_mode_html it.snapshot
  match st.message_id with
  | some m =>
    if m ≠ 0 then
      if st.previous_answer = some answer then
        ({ st with previous_answer := some answer }, [])
      else if it.callFails then
        ({ st with parse_mode_html := false }, [.edit m answer st.parse_mode_html false])
      else
        ({ st with previous_answer := some answer }, [.edit m answer st.parse_mode_html true])
    else
      streamSend st it answer
  | none => streamSend st it answer

/-- The outbound events of a whole run of the display loop over the given
iterations, from state `st`. -/
def streamRun (st : LoopState) : List LoopIter → List TgEvent
  | [] => []
  | it :: rest => (streamStep st it).2 ++ streamRun (streamStep st it).1 rest

/-- The text carried by an outbound call. -/
def eventText : TgEvent → List Char
  | .send t _ _ => t
  | .edit _ t _ _ => t

/-- The parse mode an outbound call was issued with (true = HTML). -/
def eventHtml : TgEvent → Bool
  | .send _ h _ => h
  | .edit _ _ h _ => h

/-- Whether the outbound call succeeded. -/
def eventOk : TgEvent → Bool
  | .send _ _ r => r.isSome
  | .edit _ _ _ ok => ok

/-- Whether the event is a successful fresh send. -/
def isOkSend : TgEvent → Bool
  | .send _ _ (some _) => true
  | _ => false

/-- Whether the event is a fresh send attempt that raised. -/
def isFailedSend : TgEvent → Bool
  | .send _ _ none => true
  | _ => false

/-- The texts of the successful outbound messages (the successful first send
and every successful edit), in order. -/
def successTexts (evs : List TgEvent) : List (List Char) :=
  evs.filterMap (fun e => if eventOk e then some (eventText e) else none)

/-- The message id returned by the first successful send of a run. -/
def firstOkSendId : List TgEvent → Option Nat
  | [] => none
  | .send _ _ (some m) :: _ => some m
  | _ :: rest => firstOkSendId rest

/-- The text the loop state remembers as already displayed: `previous_answer`,
provided an in-place edit is possible (truthy `message_id`). -/
def prevList (st : LoopState) : List (List Char) :=
  match st.message_id, st.previous_answer with
  | some m, some p => if m ≠ 0 then [p] else []
  | _, _ => []

theorem streamStep_none (st : LoopState) (it : LoopIter) (hm : st.message_id = none) :
    streamStep st it = streamSend st it (renderProvisional st.parse_mode_html it.snapshot) := by
  simp [streamStep, hm]

theorem streamStep_some (st : LoopState) (it : LoopIter) (m : Nat)
    (hm : st.message_id = some m) (hm0 : m ≠ 0) :
    streamStep st it =
      (let answer := renderProvisional st.parse_mode_html it.snapshot
       if st.previous_answer = some answer then
        ({ st with previous_answer := some answer }, [])
       else if it.callFails then
        ({ st with parse_mode_html := false }, [.edit m answer st.parse_mode_html false])
       else
        ({ st with previous_answer := some answer }, [.edit m answer st.parse_mode_html true])) := by
  simp [streamStep, hm, hm0]

theorem streamStep_some_zero (st : LoopState) (it : LoopIter)
    (hm : st.message_id = some 0) :
    streamStep st it = streamSend st it (renderProvisional st.parse_mode_html it.snapshot) := by
  simp [streamStep, hm]

theorem successTexts_nil : successTexts [] = [] := rfl

theorem successTexts_append (a b : List TgEvent) :
    successTexts (a ++ b) = successTexts a ++ successTexts b := by
  rw [successTexts, successTexts, successTexts, List.filterMap_append]

theorem successTexts_cons (e : TgEvent) (evs : List TgEvent) :
    successTexts (e :: evs) =
      (if eventOk e then [eventText e] else []) ++ successTexts evs := by
  rw [successTexts, List.filterMap_cons]
  by_cases h : eventOk e <;> simp [h, successTexts]

theorem prevList_update_html (st : LoopState) :
    prevList { st with parse_mode_html := false } = prevList st := by
  rw [prevList, prevList]

theorem prevList_none (st : LoopState) (hm : st.message_id = none) :
    prevList st = [] := by
  rw [prevList, hm]

theorem prevList_some_zero (st : LoopState) (hm : st.message_id = some 0) :
    prevList st = [] := by
  rw [prevList, hm]
  split <;> simp_all

theorem prevList_update_prev (st : LoopState) (m : Nat) (a : List Char)
    (hm : st.message_id = some m) (hm0 : m ≠ 0) :
    prevList { st with previous_answer := some a } = [a] := by
  rw [prevList]
  have : ({ st with previous_answer := some a } : LoopState).message_id = some m := hm
  rw [this]
  simp [hm0]

theorem prevList_update_both (st : LoopState) (m : Nat) (a : List Char) (hm0 : m ≠ 0) :
    prevList { st with message_id := some m, previous_answer := some a } = [a] := by
  rw [prevList]
  simp [hm0]

/-- Invariant induction for C8: prefixing the remembered displayed text, the
successful outbound texts of any run form a chain of pairwise-distinct
consecutive elements. -/
theorem chain_aux : ∀ (iters : List LoopIter) (st : LoopState),
    (∀ it ∈ iters, it.newMessageId ≠ 0) →
    List.Chain' (fun a b => a ≠ b) (prevList st ++ successTexts (streamRun st iters)) := by
  intro iters
  induction iters with
  | nil =>
    intro st _
    rw [streamRun, successTexts_nil, List.append_nil, prevList]
    split
    · split <;> simp
    · simp
  | cons it rest ih =>
    intro h h
    rename_i st
    have hit : it.newMessageId ≠ 0 := h it (List.mem_cons_self it rest)
    have hrest : ∀ x ∈ rest, x.newMessageId ≠ 0 := fun x hx => h x (List.mem_cons_of_mem it hx)
    rw [streamRun]
    cases hm : st.message_id with
    | none =>
      by_cases hf : it.callFails
      · have hstep : streamStep st it = ({ st with parse_mode_html := false },
            [TgEvent.send (renderProvisional st.parse_mode_html it.snapshot)
              st.parse_mode_html none]) := by
          simp [streamStep, streamSend, hm, hf]
        rw [hstep, successTexts_append]
        have h1 : successTexts [TgEvent.send (renderProvisional st.parse_mode_html it.snapshot)
            st.parse_mode_html none] = [] := rfl
        rw [h1, prevList_none st hm, List.nil_append, List.nil_append]
        have := ih { st with parse_mode_html := false } hrest
        rw [prevList_update_html, prevList_none st hm, List.nil_append] at this
        exact this
      · have hstep : streamStep st it =
            ({ st with message_id := some it.newMessageId,
                       previous_answer := some (renderProvisional st.parse_mode_html it.snapshot) },
              [TgEvent.send (renderProvisional st.parse_mode_html it.snapshot)
                st.parse_mode_html (some it.newMessageId)]) := by
          simp [streamStep, streamSend, hm, hf]
        rw [hstep, successTexts_append]
        have h1 : successTexts [TgEvent.send (renderProvisional st.parse_mode_html it.snapshot)
            st.parse_mode_html (some it.newMessageId)] =
            [renderProvisional st.parse_mode_html it.snapshot] := rfl
        rw [h1, prevList_none st hm, List.nil_append]
        have := ih { st with message_id := some it.newMessageId,
                             previous_answer := some (renderProvisional st.parse_mode_html it.snapshot) } hrest
        rw [prevList_update_both st it.newMessageId _ hit] at this
        exact this
    | some m =>
      by_cases hm0 : m = 0
      · subst hm0
        by_cases hf : it.callFails
        · have hstep : streamStep st it = ({ st with parse_mode_html := false },
              [TgEvent.send (renderProvisional st.parse_mode_html it.snapshot)
                st.parse_mode_html none]) := by
            simp [streamStep, streamSend, hm, hf]
          rw [hstep, successTexts_append]
          have h1 : successTexts [TgEvent.send (renderProvisional st.parse_mode_html it.snapshot)
              st.parse_mode_html none] = [] := rfl
          rw [h1, prevList_some_zero st hm, List.nil_append, List.nil_append]
          have := ih { st with parse_mode_html := false } hrest
          rw [prevList_update_html, prevList_some_zero st hm, List.nil_append] at this
          exact this
        · have hstep : streamStep st it =
              ({ st with message_id := some it.newMessageId,
                         previous_answer := some (renderProvisional st.parse_mode_html it.snapshot) },
                [TgEvent.send (renderProvisional st.parse_mode_html it.snapshot)
                  st.parse_mode_html (some it.newMessageId)]) := by
            simp [streamStep, streamSend, hm, hf]
          rw [hstep, successTexts_append]
          have h1 : successTexts [TgEvent.send (renderProvisional st.parse_mode_html it.snapshot)
              st.parse_mode_html (some it.newMessageId)] =
              [renderProvisional st.parse_mode_html it.snapshot] := rfl
          rw [h1, prevList_some_zero st hm, List.nil_append]
          have := ih { st with message_id := some it.newMessageId,
                               previous_answer := some (renderProvisional st.parse_mode_html it.snapshot) } hrest
          rw [prevList_update_both st it.newMessageId _ hit] at this
          exact this
      · by_cases hskip : st.previous_answer =
            some (renderProvisional st.parse_mode_html it.snapshot)
        · have hstep : streamStep st it =
              ({ st with previous_answer := some (renderProvisional st.parse_mode_html it.snapshot) }, []) := by
            simp [streamStep, hm, hm0, hskip]
          rw [hstep]
          have h1 : ((({ st with previous_answer := some (renderProvisional st.parse_mode_html it.snapshot) } : LoopState),
              ([] : List TgEvent)).2 : List TgEvent) = [] := rfl
          rw [h1, List.nil_append]
          have := ih { st with previous_answer := some (renderProvisional st.parse_mode_html it.snapshot) } hrest
          rw [prevList_update_prev st m _ hm hm0] at this
          rw [show prevList st = [renderProvisional st.parse_mode_html it.snapshot] by
            rw [prevList, hm, hskip]; simp [hm0]]
          exact this
        · by_cases hf : it.callFails
          · have hstep : streamStep st it = ({ st with parse_mode_html := false },
                [TgEvent.edit m (renderProvisional st.parse_mode_html it.snapshot)
                  st.parse_mode_html false]) := by
              simp [streamStep, hm, hm0, hskip, hf]
            rw [hstep, successTexts_append]
            have h1 : successTexts [TgEvent.edit m (renderProvisional st.parse_mode_html it.snapshot)
                st.parse_mode_html false] = [] := rfl
            rw [h1, List.nil_append]
            have := ih { st with parse_mode_html := false } hrest
            rw [prevList_update_html] at this
            exact this
          · have hstep : streamStep st it =
                ({ st with previous_answer := some (renderProvisional st.parse_mode_html it.snapshot) },
                  [TgEvent.edit m (renderProvisional st.parse_mode_html it.snapshot)
                    st.parse_mode_html true]) := by
              simp [streamStep, hm, hm0, hskip, hf]
            rw [hstep, successTexts_append]
            have h1 : successTexts [TgEvent.edit m (renderProvisional st.parse_mode_html it.snapshot)
                st.parse_mode_html true] = [renderProvisional st.parse_mode_html it.snapshot] := rfl
            rw [h1]
            have := ih { st with previous_answer := some (renderProvisional st.parse_mode_html it.snapshot) } hrest
            rw [prevList_update_prev st m _ hm hm0] at this
            cases hp : st.previous_answer with
            | none =>
              have hpl : prevList st = [] := by rw [prevList, hm, hp]
              rw [hpl, List.nil_append]
              exact this
            | some p =>
              have hpl : prevList st = [p] := by rw [prevList, hm, hp]; simp [hm0]
              rw [hpl]
              have hne : p ≠ renderProvisional st.parse_mode_html it.snapshot := by
                intro hc
                rw [hp, hc] at hskip
                exact hskip rfl
              rw [List.singleton_append, List.singleton_append, List.chain'_cons] at *
              exact ⟨hne, this⟩

/-- C8: in every run of the display loop (with the nonzero message ids
Telegram returns), no two consecutive successfully sent outbound messages —
the first send and the subsequent in-place edits — carry identical rendered
text: an edit goes out only when the fresh provisional rendering differs
from the previously sent one. -/
theorem stream_no_redundant_edits (iters : List LoopIter)
    (h : ∀ it ∈ iters, it.newMessageId ≠ 0) :
    List.Chain' (fun a b => a ≠ b) (successTexts (streamRun initLoopState iters)) := by
  have := chain_aux iters initLoopState h
  rw [show prevList initLoopState = [] from rfl, List.nil_append] at this
  exact this

/-- Witness for C8 on a run with a changed, a repeated and a changed
snapshot: the repeated rendering is skipped and the chain of sent texts has
pairwise-distinct neighbours. -/
theorem stream_no_redundant_edits_witness :
    (∀ it ∈ [LoopIter.mk "a".toList false 7, LoopIter.mk "a".toList false 7,
        LoopIter.mk "ab".toList false 7], it.newMessageId ≠ 0) ∧
    List.Chain' (fun a b => a ≠ b) (successTexts (streamRun initLoopState
      [LoopIter.mk "a".toList false 7, LoopIter.mk "a".toList false 7,
        LoopIter.mk "ab".toList false 7])) :=
  ⟨by decide, stream_no_redundant_edits _ (by decide)⟩

theorem streamStep_eq_skip (st : LoopState) (it : LoopIter) (m : Nat)
    (hm : st.message_id = some m) (hm0 : m ≠ 0)
    (hskip : st.previous_answer = some (renderProvisional st.parse_mode_html it.snapshot)) :
    streamStep st it =
      ({ st with previous_answer := some (renderProvisional st.parse_mode_html it.snapshot) },
        []) := by
  simp [streamStep, hm, hm0, hskip]

theorem streamStep_eq_edit_fail (st : LoopState) (it : LoopIter) (m : Nat)
    (hm : st.message_id = some m) (hm0 : m ≠ 0)
    (hskip : ¬ st.previous_answer = some (renderProvisional st.parse_mode_html it.snapshot))
    (hf : it.callFails = true) :
    streamStep st it = ({ st with parse_mode_html := false },
      [TgEvent.edit m (renderProvisional st.parse_mode_html it.snapshot)
        st.parse_mode_html false]) := by
  simp [streamStep, hm, hm0, hskip, hf]

theorem streamStep_eq_edit_ok (st : LoopState) (it : LoopIter) (m : Nat)
    (hm : st.message_id = some m) (hm0 : m ≠ 0)
    (hskip : ¬ st.previous_answer = some (renderProvisional st.parse_mode_html it.snapshot))
    (hf : ¬ it.callFails = true) :
    streamStep st it =
      ({ st with previous_answer := some (renderProvisional st.parse_mode_html it.snapshot) },
        [TgEvent.edit m (renderProvisional st.parse_mode_html it.snapshot)
          st.parse_mode_html true]) := by
  simp [streamStep, hm, hm0, hskip, hf]

theorem streamStep_eq_send_fail (st : LoopState) (it : LoopIter)
    (hsend : st.message_id = none ∨ st.message_id = some 0)
    (hf : it.callFails = true) :
    streamStep st it = ({ st with parse_mode_html := false },
      [TgEvent.send (renderProvisional st.parse_mode_html it.snapshot)
        st.parse_mode_html none]) := by
  rcases hsend with hm | hm <;> simp [streamStep, streamSend, hm, hf]

theorem streamStep_eq_send_ok (st : LoopState) (it : LoopIter)
    (hsend : st.message_id = none ∨ st.message_id = some 0)
    (hf : ¬ it.callFails = true) :
    streamStep st it =
      ({ st with message_id := some it.newMessageId,
                 previous_answer := some (renderProvisional st.parse_mode_html it.snapshot) },
        [TgEvent.send (renderProvisional st.parse_mode_html it.snapshot)
          st.parse_mode_html (some it.newMessageId)]) := by
  rcases hsend with hm | hm <;> simp [streamStep, streamSend, hm, hf]

/-- From a state whose `message_id` is already a truthy id `m`, the loop only
ever edits, and every edit targets exactly `m`. -/
theorem streamRun_edits_only (iters : List LoopIter) : ∀ (st : LoopState) (m : Nat),
    st.message_id = some m → m ≠ 0 →
    ∀ e ∈ streamRun st iters, ∃ t hb ok, e = TgEvent.edit m t hb ok := by
  induction iters with
  | nil =>
    intro st m hm hm0 e he
    rw [streamRun] at he
    exact absurd he (List.not_mem_nil e)
  | cons it rest ih =>
    intro st m hm hm0 e he
    rw [streamRun] at he
    by_cases hskip : st.previous_answer = some (renderProvisional st.parse_mode_html it.snapshot)
    · rw [streamStep_eq_skip st it m hm hm0 hskip] at he
      rw [show ((({ st with previous_answer := some (renderProvisional st.parse_mode_html it.snapshot) } : LoopState),
          ([] : List TgEvent)).2 : List TgEvent) = [] from rfl, List.nil_append] at he
      exact ih _ m (by exact hm) hm0 e he
    · by_cases hf : it.callFails
      · rw [streamStep_eq_edit_fail st it m hm hm0 hskip hf] at he
        rcases List.mem_append.mp he with he1 | he2
        · simp at he1
          exact ⟨_, _, _, he1⟩
        · exact ih _ m (by exact hm) hm0 e he2
      · rw [streamStep_eq_edit_ok st it m hm hm0 hskip hf] at he
        rcases List.mem_append.mp he with he1 | he2
        · simp at he1
          exact ⟨_, _, _, he1⟩
        · exact ih _ m (by exact hm) hm0 e he2

/-- Once the parse mode has been degraded to plain text, every later outbound
call of the run is issued in plain text: nothing ever restores HTML mode. -/
theorem streamRun_plain_stays (iters : List LoopIter) : ∀ st : LoopState,
    st.parse_mode_html = false →
    ∀ e ∈ streamRun st iters, eventHtml e = false := by
  induction iters with
  | nil =>
    intro st hh e he
    rw [streamRun] at he
    exact absurd he (List.not_mem_nil e)
  | cons it rest ih =>
    intro st hh e he
    rw [streamRun] at he
    cases hm : st.message_id with
    | none =>
      by_cases hf : it.callFails
      · rw [streamStep_eq_send_fail st it (Or.inl hm) hf] at he
        rcases List.mem_append.mp he with he1 | he2
        · simp at he1; rw [he1, eventHtml, hh]
        · exact ih _ rfl e he2
      · rw [streamStep_eq_send_ok st it (Or.inl hm) hf] at he
        rcases List.mem_append.mp he with he1 | he2
        · simp at he1; rw [he1, eventHtml, hh]
        · exact ih _ (by exact hh) e he2
    | some m =>
      by_cases hm0 : m = 0
      · subst hm0
        by_cases hf : it.callFails
        · rw [streamStep_eq_send_fail st it (Or.inr hm) hf] at he
          rcases List.mem_append.mp he with he1 | he2
          · simp at he1; rw [he1, eventHtml, hh]
          · exact ih _ rfl e he2
        · rw [streamStep_eq_send_ok st it (Or.inr hm) hf] at he
          rcases List.mem_append.mp he with he1 | he2
          · simp at he1; rw [he1, eventHtml, hh]
          · exact ih _ (by exact hh) e he2
      · by_cases hskip : st.previous_answer =
            some (renderProvisional st.parse_mode_html it.snapshot)
        · rw [streamStep_eq_skip st it m hm hm0 hskip] at he
          rw [show ((({ st with previous_answer := some (renderProvisional st.parse_mode_html it.snapshot) } : LoopState),
              ([] : List TgEvent)).2 : List TgEvent) = [] from rfl, List.nil_append] at he
          exact ih _ (by exact hh) e he
        · by_cases hf : it.callFails
          · rw [streamStep_eq_edit_fail st it m hm hm0 hskip hf] at he
            rcases List.mem_append.mp he with he1 | he2
            · simp at he1; rw [he1, eventHtml, hh]
            · exact ih _ rfl e he2
          · rw [streamStep_eq_edit_ok st it m hm hm0 hskip hf] at he
            rcases List.mem_append.mp he with he1 | he2
            · simp at he1; rw [he1, eventHtml, hh]
            · exact ih _ (by exact hh) e he2

/-- After any failed outbound call, every later outbound call is issued in
plain text: a failure degrades the parse mode for the rest of the run. -/
theorem streamRun_degrade (iters : List LoopIter) : ∀ st : LoopState,
    List.Pairwise (fun a b => eventOk a = false → eventHtml b = false)
      (streamRun st iters) := by
  induction iters with
  | nil =>
    intro st
    rw [streamRun]
    exact List.Pairwise.nil
  | cons it rest ih =>
    intro st
    rw [streamRun]
    rw [List.pairwise_append]
    refine ⟨?_, ih _, ?_⟩
    · -- the step emits at most one event
      cases hm : st.message_id with
      | none =>
        by_cases hf : it.callFails
        · rw [streamStep_eq_send_fail st it (Or.inl hm) hf]
          exact List.pairwise_singleton _ _
        · rw [streamStep_eq_send_ok st it (Or.inl hm) hf]
          exact List.pairwise_singleton _ _
      | some m =>
        by_cases hm0 : m = 0
        · subst hm0
          by_cases hf : it.callFails
          · rw [streamStep_eq_send_fail st it (Or.inr hm) hf]
            exact List.pairwise_singleton _ _
          · rw [streamStep_eq_send_ok st it (Or.inr hm) hf]
            exact List.pairwise_singleton _ _
        · by_cases hskip : st.previous_answer =
              some (renderProvisional st.parse_mode_html it.snapshot)
          · rw [streamStep_eq_skip st it m hm hm0 hskip]
            exact List.Pairwise.nil
          · by_cases hf : it.callFails
            · rw [streamStep_eq_edit_fail st it m hm hm0 hskip hf]
              exact List.pairwise_singleton _ _
            · rw [streamStep_eq_edit_ok st it m hm hm0 hskip hf]
              exact List.pairwise_singleton _ _
    · -- a failed event in this step forces plain text afterwards
      intro a ha b hb hfail
      cases hm : st.message_id with
      | none =>
        by_cases hf : it.callFails
        · rw [streamStep_eq_send_fail st it (Or.inl hm) hf] at ha hb
          exact streamRun_plain_stays rest _ rfl b hb
        · rw [streamStep_eq_send_ok st it (Or.inl hm) hf] at ha hb
          simp at ha
          rw [ha, eventOk] at hfail
          simp at hfail
      | some m =>
        by_cases hm0 : m = 0
        · subst hm0
          by_cases hf : it.callFails
          · rw [streamStep_eq_send_fail st it (Or.inr hm) hf] at ha hb
            exact streamRun_plain_stays rest _ rfl b hb
          · rw [streamStep_eq_send_ok st it (Or.inr hm) hf] at ha hb
            simp at ha
            rw [ha, eventOk] at hfail
            simp at hfail
        · by_cases hskip : st.previous_answer =
              some (renderProvisional st.parse_mode_html it.snapshot)
          · rw [streamStep_eq_skip st it m hm hm0 hskip] at ha
            simp at ha
          · by_cases hf : it.callFails
            · rw [streamStep_eq_edit_fail st it m hm hm0 hskip hf] at ha hb
              exact streamRun_plain_stays rest _ rfl b hb
            · rw [streamStep_eq_edit_ok st it m hm hm0 hskip hf] at ha hb
              simp at ha
              rw [ha, eventOk] at hfail
              simp at hfail

/-- From the initial state (no message id yet): until the first send succeeds
every emitted event is a failed fresh send (never an edit), and every edit of
the whole run targets exactly the id returned by that first successful
send. -/
theorem streamRun_none_structure (iters : List LoopIter) : ∀ st : LoopState,
    st.message_id = none →
    (∀ it ∈ iters, it.newMessageId ≠ 0) →
    (∀ e ∈ (streamRun st iters).takeWhile (fun e => !(isOkSend e)),
        isFailedSend e = true) ∧
    (∀ (m : Nat) (t : List Char) (hb ok : Bool),
        TgEvent.edit m t hb ok ∈ streamRun st iters →
        firstOkSendId (streamRun st iters) = some m) := by
  induction iters with
  | nil =>
    intro st hm _
    rw [streamRun]
    exact ⟨fun e he => absurd he (List.not_mem_nil e),
      fun m t hb ok he => absurd he (List.not_mem_nil _)⟩
  | cons it rest ih =>
    intro st hm h
    have hit : it.newMessageId ≠ 0 := h it (List.mem_cons_self it rest)
    have hrest : ∀ x ∈ rest, x.newMessageId ≠ 0 := fun x hx => h x (List.mem_cons_of_mem it hx)
    rw [streamRun]
    by_cases hf : it.callFails
    · rw [streamStep_eq_send_fail st it (Or.inl hm) hf]
      have hsingle : ((({ st with parse_mode_html := false } : LoopState),
          [TgEvent.send (renderProvisional st.parse_mode_html it.snapshot)
            st.parse_mode_html none]).2 : List TgEvent) =
          [TgEvent.send (renderProvisional st.parse_mode_html it.snapshot)
            st.parse_mode_html none] := rfl
      rw [hsingle, List.cons_append, List.nil_append]
      obtain ⟨iha, ihb⟩ := ih { st with parse_mode_html := false } (by exact hm) hrest
      constructor
      · intro e he
        rw [List.takeWhile_cons] at he
        have hc : (!(isOkSend (TgEvent.send
            (renderProvisional st.parse_mode_html it.snapshot) st.parse_mode_html none))) =
            true := rfl
        rw [if_pos hc] at he
        rcases List.mem_cons.mp he with he1 | he2
        · rw [he1]; rfl
        · exact iha e he2
      · intro m t hb ok he
        rcases List.mem_cons.mp he with he1 | he2
        · exact absurd he1 (by simp)
        · have := ihb m t hb ok he2
          rw [show firstOkSendId (TgEvent.send
              (renderProvisional st.parse_mode_html it.snapshot) st.parse_mode_html none ::
              streamRun { st with parse_mode_html := false } rest) =
              firstOkSendId (streamRun { st with parse_mode_html := false } rest) from rfl]
          exact this
    · rw [streamStep_eq_send_ok st it (Or.inl hm) hf]
      have hsingle : ((({ st with message_id := some it.newMessageId, previous_answer := some (renderProvisional st.parse_mode_html it.snapshot) } : LoopState),
          [TgEvent.send (renderProvisional st.parse_mode_html it.snapshot)
            st.parse_mode_html (some it.newMessageId)]).2 : List TgEvent) =
          [TgEvent.send (renderProvisional st.parse_mode_html it.snapshot)
            st.parse_mode_html (some it.newMessageId)] := rfl
      rw [hsingle, List.cons_append, List.nil_append]
      constructor
      · intro e he
        rw [List.takeWhile_cons] at he
        have hc : (!(isOkSend (TgEvent.send
            (renderProvisional st.parse_mode_html it.snapshot) st.parse_mode_html
            (some it.newMessageId)))) = false := rfl
        rw [if_neg (by rw [hc]; exact Bool.false_ne_true)] at he
        exact absurd he (List.not_mem_nil e)
      · intro m t hb ok he
        rcases List.mem_cons.mp he with he1 | he2
        · exact absurd he1 (by simp)
        · obtain ⟨t', hb', ok', heq⟩ := streamRun_edits_only rest _ it.newMessageId
            (by rfl) hit _ he2
          have hmeq : m = it.newMessageId := by
            injection heq
          rw [show firstOkSendId (TgEvent.send
              (renderProvisional st.parse_mode_html it.snapshot) st.parse_mode_html
              (some it.newMessageId) :: streamRun { st with message_id := some it.newMessageId, previous_answer := some (renderProvisional st.parse_mode_html it.snapshot) } rest) =
              some it.newMessageId from rfl, hmeq]

/-- The C10 property of one run of the display loop from a fresh state:
(1) every event before the first successful send is a failed fresh send —
never an edit, and a failed first send is retried as a fresh send; (2) every
edit of the run targets exactly the message id returned by the first
successful send; (3) after any failed outbound call, every later outbound
call is issued in degraded plain-text mode. -/
def editsAfterFirstSend (iters : List LoopIter) : Prop :=
  (∀ e ∈ (streamRun initLoopState iters).takeWhile (fun e => !(isOkSend e)),
      isFailedSend e = true) ∧
  (∀ (m : Nat) (t : List Char) (hb ok : Bool),
      TgEvent.edit m t hb ok ∈ streamRun initLoopState iters →
      firstOkSendId (streamRun initLoopState iters) = some m) ∧
  List.Pairwise (fun a b => eventOk a = false → eventHtml b = false)
    (streamRun initLoopState iters)

/-- C10: in every run of the display loop (with the nonzero message ids
Telegram returns), an edit is attempted only after an initial send has
succeeded; the message identifier stays unset until the first send returns,
every subsequent edit targets exactly that identifier, and a failed first
send is retried as a fresh plain-text send, never as an edit. -/
theorem stream_edit_only_after_send (iters : List LoopIter)
    (h : ∀ it ∈ iters, it.newMessageId ≠ 0) :
    editsAfterFirstSend iters := by
  obtain ⟨ha, hb⟩ := streamRun_none_structure iters initLoopState rfl h
  exact ⟨ha, hb, streamRun_degrade iters initLoopState⟩

/-- Witness for C10 on a run whose first send fails, whose retry succeeds in
plain text, and which then edits the sent message. -/
theorem stream_edit_only_after_send_witness :
    (∀ it ∈ [LoopIter.mk "a".toList true 7, LoopIter.mk "b".toList false 7,
        LoopIter.mk "c".toList false 9], it.newMessageId ≠ 0) ∧
    editsAfterFirstSend [LoopIter.mk "a".toList true 7, LoopIter.mk "b".toList false 7,
        LoopIter.mk "c".toList false 9] :=
  ⟨by decide, stream_edit_only_after_send _ (by decide)⟩

end OllamaBot
